import Mathlib

/-!
Shallow embedding of the `errors` Go package: the `CError` struct, its
constructors (`New`, `Wrap`), fluent derivation methods (`WithCode`,
`WithMessage`, `WithWrap`, `WithDetail`, `WithUserDetail`), matching
(`Is`, `IsCode`), chain traversal (`UnwrapAll`), and the two serialization
surfaces (`MarshalJSON` / `UnmarshalJSON` and `FullData` /
`expandAllWrapped`).

Modelling choices:
- Go `uint16` is `Fin 65536`; the `int32` identity counter is an `Int`
  together with an explicit two's-complement wrap (`addInt32`).
- A Go `error` value appearing as a cause is `GoErr`: either a `*CError`,
  a foreign error that implements `Unwrap() error`, or a plain foreign
  error.  A foreign error's `Error()` text is carried directly.
- Go slices become `List String` at the value level; a second, heap-level
  model (`Slice`/`Heap`, further below) captures backing-array aliasing
  for the copy-on-write claims.
-/

mutual

/-- The `CError` struct of the package: wrapped cause, technical details,
user details, message, identity, code (uint16). -/
inductive CError : Type where
  | mk (wrapped : Option GoErr) (details : List String)
       (userdetails : List String) (msg : String) (id : Int)
       (code : Fin 65536) : CError

/-- A Go `error` value that can sit in a cause chain: a `*CError`, a
foreign error exposing `Unwrap() error` (whose result may be nil), or a
plain foreign error.  Foreign errors carry their `Error()` text. -/
inductive GoErr : Type where
  | cerr (e : CError) : GoErr
  | unwrapper (text : String) (next : Option GoErr) : GoErr
  | plain (text : String) : GoErr

end

namespace CError

/-- Field accessor: the wrapped cause. -/
def wrapped : CError → Option GoErr
  | .mk w _ _ _ _ _ => w

/-- Field accessor: the technical details. -/
def details : CError → List String
  | .mk _ d _ _ _ _ => d

/-- Field accessor: the user-safe details. -/
def userdetails : CError → List String
  | .mk _ _ u _ _ _ => u

/-- Field accessor: the message. -/
def msg : CError → String
  | .mk _ _ _ m _ _ => m

/-- Field accessor: the identity. -/
def id : CError → Int
  | .mk _ _ _ _ i _ => i

/-- Field accessor: the code. -/
def code : CError → Fin 65536
  | .mk _ _ _ _ _ c => c

end CError

/-- Two's-complement int32 interpretation of an integer. -/
def toSigned32 (n : Int) : Int :=
  (n + 2147483648) % 4294967296 - 2147483648

/-- `atomic.AddInt32(&errorCounter, 1)`: increments with int32 wraparound
and returns the new value. -/
def addInt32 (c : Int) : Int :=
  toSigned32 (c + 1)

/-- `New(code, msg)`: allocates a fresh identity from the counter and
builds a `CError` with empty detail lists and no cause.  The counter is
threaded explicitly; the pair is (new value, new counter). -/
def NewC (counter : Int) (code : Fin 65536) (msg : String) :
    CError × Int :=
  let id := addInt32 counter
  (CError.mk none [] [] msg id code, id)

/-- `Wrap(err, code, msg)`: like `New` but stores the wrapped cause. -/
def WrapC (counter : Int) (err : GoErr) (code : Fin 65536)
    (msg : String) : CError × Int :=
  let id := addInt32 counter
  (CError.mk (some err) [] [] msg id code, id)

/-- Value of `errorCounter` after `n` construction calls starting from
the zero-initialized package variable. -/
def counterAfter : Nat → Int
  | 0 => 0
  | n + 1 => addInt32 (counterAfter n)

namespace CError

/-- `WithCode`: copies the struct (`newErr := *e`) and replaces `code`. -/
def WithCode (e : CError) (code : Fin 65536) : CError :=
  .mk e.wrapped e.details e.userdetails e.msg e.id code

/-- `WithMessage`: copies the struct and replaces `msg`. -/
def WithMessage (e : CError) (m : String) : CError :=
  .mk e.wrapped e.details e.userdetails m e.id e.code

/-- `WithWrap`: copies the struct and replaces `wrapped`. -/
def WithWrap (e : CError) (err : GoErr) : CError :=
  .mk (some err) e.details e.userdetails e.msg e.id e.code

/-- `WithDetail`: copies the struct, deep-copies `details` into a fresh
slice and appends the new detail (value-level view of
`make`/`copy`/`append`). -/
def WithDetail (e : CError) (d : String) : CError :=
  .mk e.wrapped (e.details ++ [d]) e.userdetails e.msg e.id e.code

/-- `WithUserDetail`: copies the struct, deep-copies `userdetails` into a
fresh slice and appends the new detail. -/
def WithUserDetail (e : CError) (d : String) : CError :=
  .mk e.wrapped e.details (e.userdetails ++ [d]) e.msg e.id e.code

/-- `Is(target)`: true iff `target` is a `*CError` with the same id. -/
def Is (e : CError) (target : GoErr) : Bool :=
  match target with
  | .cerr c => e.id == c.id
  | _ => false

/-- `IsCode(code)`: the argument is a Go `int`; out-of-range values are
rejected before the `uint16(code)` conversion. -/
def IsCode (e : CError) (c : Int) : Bool :=
  if c < 0 || c > 65535 then false
  else (e.code : Nat) == c.toNat % 65536

end CError

/-- The step of the `UnwrapAll` loop's type switch: a `*CError` yields its
`wrapped` field, a foreign unwrapper yields `Unwrap()`, anything else
stops the walk. -/
def nextLink : GoErr → Option GoErr
  | .cerr e => e.wrapped
  | .unwrapper _ n => n
  | .plain _ => none

/-- The `UnwrapAll` loop body from a non-nil `current`: records every
link, then steps per the type switch. -/
def chainFrom : GoErr → List GoErr
  | .cerr (.mk (some w) d u m i c) =>
      .cerr (.mk (some w) d u m i c) :: chainFrom w
  | .cerr (.mk none d u m i c) => [.cerr (.mk none d u m i c)]
  | .unwrapper t (some n) => .unwrapper t (some n) :: chainFrom n
  | .unwrapper t none => [.unwrapper t none]
  | .plain t => [.plain t]

/-- `UnwrapAll`: nil cause gives nil; otherwise walk from the cause. -/
def CError.UnwrapAll (c : CError) : List GoErr :=
  match c.wrapped with
  | none => []
  | some w => chainFrom w

/-- A JSON document (integers only, which covers everything this package
emits; object fields in document order). -/
inductive JValue : Type where
  | str (s : String) : JValue
  | num (n : Int) : JValue
  | bool (b : Bool) : JValue
  | null : JValue
  | arr (xs : List JValue) : JValue
  | obj (fields : List (String × JValue)) : JValue

mutual

/-- All string values occurring anywhere in a JSON document (object keys
excluded: the keys of the wire shape are the fixed literals of the
struct tags, not data). -/
def jsonStrVals : JValue → List String
  | .str s => [s]
  | .num _ => []
  | .bool _ => []
  | .null => []
  | .arr xs => jsonStrValsL xs
  | .obj fs => jsonStrValsF fs

/-- String values of a list of JSON documents. -/
def jsonStrValsL : List JValue → List String
  | [] => []
  | x :: xs => jsonStrVals x ++ jsonStrValsL xs

/-- String values of the field list of a JSON object. -/
def jsonStrValsF : List (String × JValue) → List String
  | [] => []
  | (_, v) :: fs => jsonStrVals v ++ jsonStrValsF fs

end

mutual

/-- All numeric values occurring anywhere in a JSON document. -/
def jsonNumVals : JValue → List Int
  | .str _ => []
  | .num n => [n]
  | .bool _ => []
  | .null => []
  | .arr xs => jsonNumValsL xs
  | .obj fs => jsonNumValsF fs

/-- Numeric values of a list of JSON documents. -/
def jsonNumValsL : List JValue → List Int
  | [] => []
  | x :: xs => jsonNumVals x ++ jsonNumValsL xs

/-- Numeric values of the field list of a JSON object. -/
def jsonNumValsF : List (String × JValue) → List Int
  | [] => []
  | (_, v) :: fs => jsonNumVals v ++ jsonNumValsF fs

end

/-- Top-level field names of a JSON object. -/
def jsonFieldNames : JValue → List String
  | .obj fs => fs.map Prod.fst
  | _ => []

/-- `MarshalJSON`: the `errorJSON` struct marshals its fields in
declaration order — `message`, `code`, then `details` (the user details)
with `omitempty`, so the `details` key is absent when the user-detail
slice is empty. -/
def CError.MarshalJSON (e : CError) : JValue :=
  .obj ([("message", .str e.msg), ("code", .num ((e.code : Nat) : Int))] ++
    (if e.userdetails.isEmpty then []
     else [("details", .arr (e.userdetails.map JValue.str))]))

/-- The intermediate `errorJSON` struct `UnmarshalJSON` decodes into
(zero value: empty message, code 0, nil details). -/
structure ErrJSONRec where
  message : String
  codeVal : Fin 65536
  detailsVal : List String

/-- Decoding a JSON array into `[]string`, following `encoding/json`:
each element must be a string, except that a JSON null element leaves the
zero string in its slot. -/
def decodeStrElems : List JValue → Except String (List String)
  | [] => .ok []
  | .str s :: xs => (decodeStrElems xs).map (fun r => s :: r)
  | .null :: xs => (decodeStrElems xs).map (fun r => "" :: r)
  | _ :: _ => .error "json: cannot unmarshal value into string"

/-- ASCII lower-casing of one character, as `encoding/json`'s field-name
folding does. -/
def asciiLower (c : Char) : Char :=
  if 'A' ≤ c ∧ c ≤ 'Z' then Char.ofNat (c.toNat + 32) else c

/-- `encoding/json`'s field-name folding: keys are matched against a
struct field's tag preferring an exact match but also accepting an
ASCII-case-insensitive match.  The three tags here are distinct even
after folding, so matching folded keys captures both cases. -/
def foldKey (s : String) : String :=
  String.mk (s.data.map asciiLower)

/-- Decoding one object field into the `errorJSON` struct, following
`encoding/json`: the key is matched case-insensitively against the
field tags; a recognized key must hold a value of the field's type
(JSON null is a no-op for any field); unrecognized keys are ignored; a
number for `code` must fit `uint16`. -/
def decodeField (acc : ErrJSONRec) (f : String × JValue) :
    Except String ErrJSONRec :=
  if foldKey f.1 = "message" then
    match f.2 with
    | .str s => .ok { acc with message := s }
    | .null => .ok acc
    | _ => .error "json: cannot unmarshal value into string"
  else if foldKey f.1 = "code" then
    match f.2 with
    | .num n =>
        if h : 0 ≤ n ∧ n < 65536 then
          .ok { acc with codeVal := ⟨n.toNat, by omega⟩ }
        else .error "json: cannot unmarshal number into uint16"
    | .null => .ok acc
    | _ => .error "json: cannot unmarshal value into uint16"
  else if foldKey f.1 = "details" then
    match f.2 with
    | .arr xs =>
        (decodeStrElems xs).map (fun ds => { acc with detailsVal := ds })
    | .null => .ok acc
    | _ => .error "json: cannot unmarshal value into slice"
  else .ok acc

/-- `json.Unmarshal(data, &tmp)` for the `errorJSON` struct: the target
starts at its zero value; a JSON object is decoded field by field in
document order (failing at the first ill-typed recognized field); JSON
null leaves the zero struct; any other document is a type error. -/
def decodeErrTmp : JValue → Except String ErrJSONRec
  | .obj fs => fs.foldlM decodeField ⟨"", 0, []⟩
  | .null => .ok ⟨"", 0, []⟩
  | _ => .error "json: cannot unmarshal value into struct"

/-- `UnmarshalJSON`: decode into the temporary struct, then assign
`msg`, `code` and `userdetails` on the receiver (the receiver's
`wrapped`, `details` and `id` fields are not assigned). -/
def CError.UnmarshalJSON (e : CError) (data : JValue) :
    Except String CError :=
  match decodeErrTmp data with
  | .error s => .error s
  | .ok tmp =>
      .ok (.mk e.wrapped e.details tmp.detailsVal tmp.message e.id
        tmp.codeVal)

/-- The zero value `CError` (`var e CError`) a fresh deserialization
target starts from. -/
def zeroCError : CError :=
  .mk none [] [] "" 0 0

/-- The spec's `Deserialize(record)` operation: unmarshal into a fresh
zero-valued `CError`. -/
def Deserialize (data : JValue) : Except String CError :=
  zeroCError.UnmarshalJSON data

/-- A value of the `map[string]interface{}` records built by `FullData`
and `expandAllWrapped`: a string, a code number, a `[]string`, or the
list of per-link records.  Records are association lists in insertion
order (all keys distinct, so this determines the Go map). -/
inductive DVal : Type where
  | str (s : String) : DVal
  | num (n : Nat) : DVal
  | strs (xs : List String) : DVal
  | recs (xs : List (List (String × DVal))) : DVal

/-- `expandAllWrapped(err)`: walks the whole chain from a non-nil link;
a `*CError` link records message/code plus non-empty detail lists and
descends into its own `wrapped`; a foreign link records only its
`Error()` text and descends through `Unwrap()` when available. -/
def expandAllWrapped : GoErr → List (List (String × DVal))
  | .cerr (.mk (some w) d u m _ c) =>
      ([("message", .str m), ("code", .num (c : Nat))] ++
       (if d.length > 0 then [("details", .strs d)] else []) ++
       (if u.length > 0 then [("user_details", .strs u)] else []))
      :: expandAllWrapped w
  | .cerr (.mk none d u m _ c) =>
      [[("message", .str m), ("code", .num (c : Nat))] ++
       (if d.length > 0 then [("details", .strs d)] else []) ++
       (if u.length > 0 then [("user_details", .strs u)] else [])]
  | .unwrapper t (some n) => [("message", .str t)] :: expandAllWrapped n
  | .unwrapper t none => [[("message", .str t)]]
  | .plain t => [[("message", .str t)]]

/-- `FullData()`: message and code always; technical details under
`details` and user details under `user_details` only when non-empty;
when a cause exists, the expanded chain under `wrapped` (guarded by the
chain being non-empty, as in the source). -/
def CError.FullData (e : CError) : List (String × DVal) :=
  [("message", .str e.msg), ("code", .num (e.code : Nat))] ++
  (if e.details.length > 0 then [("details", .strs e.details)] else []) ++
  (if e.userdetails.length > 0 then
    [("user_details", .strs e.userdetails)] else []) ++
  (match e.wrapped with
   | some w =>
       let wrappedChain := expandAllWrapped w
       if wrappedChain.length > 0 then [("wrapped", .recs wrappedChain)]
       else []
   | none => [])

/-- A Go slice header over a string array: backing-array id and length.
The package never reslices, so every slice starts at offset 0 and its
capacity is the backing array's length. -/
structure Slice where
  arr : Nat
  len : Nat
deriving DecidableEq

/-- The store of backing arrays; a fresh allocation appends a new array
and its id is the previous store length. -/
structure Heap where
  arrays : List (List String)
deriving DecidableEq

/-- The elements a slice denotes: the first `len` entries of its backing
array. -/
def readSlice (h : Heap) (s : Slice) : List String :=
  (h.arrays.getD s.arr []).take s.len

/-- A slice header consistent with the heap: its array exists and
`len ≤ cap`. -/
def sliceOK (h : Heap) (s : Slice) : Prop :=
  s.arr < h.arrays.length ∧ s.len ≤ (h.arrays.getD s.arr []).length

/-- `make([]string, l, c)`: a fresh zero-filled array of capacity `c`
and a slice of length `l` over it. -/
def makeSlice (l c : Nat) (h : Heap) : Slice × Heap :=
  (⟨h.arrays.length, l⟩, ⟨h.arrays ++ [List.replicate c ""]⟩)

/-- `copy(dst, src)`: overwrite the first `min (len dst) (len src)`
entries of `dst`'s backing array with `src`'s elements. -/
def copySlice (dst src : Slice) (h : Heap) : Heap :=
  let n := min dst.len src.len
  let backing := h.arrays.getD dst.arr []
  ⟨h.arrays.set dst.arr ((readSlice h src).take n ++ backing.drop n)⟩

/-- `append(s, x)`: write in place past the length when capacity allows,
otherwise allocate a new backing array holding the old elements plus
`x`.  (The growth factor of the reallocating branch is immaterial here:
the package's appends always follow a `make` with one spare slot, so
they take the in-place branch.) -/
def appendSlice (s : Slice) (x : String) (h : Heap) : Slice × Heap :=
  let backing := h.arrays.getD s.arr []
  if s.len < backing.length then
    (⟨s.arr, s.len + 1⟩, ⟨h.arrays.set s.arr (backing.set s.len x)⟩)
  else
    (⟨h.arrays.length, s.len + 1⟩, ⟨h.arrays ++ [readSlice h s ++ [x]]⟩)

/-- The `CError` struct at the heap level: the two detail fields are
slice headers into the heap; the other fields are plain values. -/
structure CErrorS where
  wrapped : Option GoErr
  details : Slice
  userdetails : Slice
  msg : String
  id : Int
  code : Fin 65536

/-- Heap-level `WithCode`: `newErr := *e` copies the struct — including
both slice headers, which keep pointing at the receiver's backing
arrays — and replaces `code`.  The heap is untouched. -/
def WithCodeS (e : CErrorS) (c : Fin 65536) (h : Heap) : CErrorS × Heap :=
  ({ e with code := c }, h)

/-- Heap-level `WithMessage`: struct copy, replace `msg`. -/
def WithMessageS (e : CErrorS) (m : String) (h : Heap) : CErrorS × Heap :=
  ({ e with msg := m }, h)

/-- Heap-level `WithWrap`: struct copy, replace `wrapped`. -/
def WithWrapS (e : CErrorS) (err : GoErr) (h : Heap) : CErrorS × Heap :=
  ({ e with wrapped := some err }, h)

/-- Heap-level `WithDetail`: struct copy, then
`make([]string, len, len+1)`, `copy`, `append` on the `details` field.
The `userdetails` header still aliases the receiver's backing array. -/
def WithDetailS (e : CErrorS) (d : String) (h : Heap) : CErrorS × Heap :=
  let md := makeSlice e.details.len (e.details.len + 1) h
  let h2 := copySlice md.1 e.details md.2
  let ap := appendSlice md.1 d h2
  ({ e with details := ap.1 }, ap.2)

/-- Heap-level `WithUserDetail`: same, on the `userdetails` field. -/
def WithUserDetailS (e : CErrorS) (d : String) (h : Heap) :
    CErrorS × Heap :=
  let md := makeSlice e.userdetails.len (e.userdetails.len + 1) h
  let h2 := copySlice md.1 e.userdetails md.2
  let ap := appendSlice md.1 d h2
  ({ e with userdetails := ap.1 }, ap.2)

/-- Top-level field lookup in a JSON object. -/
def jsonLookup (k : String) : JValue → Option JValue
  | .obj fs => fs.lookup k
  | _ => none

/-- The per-link record of the full-diagnostics chain, as the spec
describes it: an ErrorValue link records message, code and its non-empty
detail lists; a foreign link records only its rendered text. -/
def linkRecord : GoErr → List (String × DVal)
  | .cerr c =>
      [("message", .str c.msg), ("code", .num (c.code : Nat))] ++
      (if c.details.length > 0 then [("details", .strs c.details)] else []) ++
      (if c.userdetails.length > 0 then
        [("user_details", .strs c.userdetails)] else [])
  | .unwrapper t _ => [("message", .str t)]
  | .plain t => [("message", .str t)]

/-!  Helper lemmas. -/

theorem counterAfter_eq_toSigned32 (n : Nat) :
    counterAfter n = toSigned32 n := by
  induction n with
  | zero => simp [counterAfter, toSigned32]
  | succ k ih =>
      simp only [counterAfter, ih, addInt32, toSigned32]
      push_cast
      omega

theorem chainFrom_cons (g : GoErr) :
    chainFrom g = g :: (match nextLink g with
      | some n => chainFrom n
      | none => []) := by
  match g with
  | .cerr (.mk (some w) d u m i c) => rfl
  | .cerr (.mk none d u m i c) => rfl
  | .unwrapper t (some n) => rfl
  | .unwrapper t none => rfl
  | .plain t => rfl

theorem addInt32_toSigned32 (x : Int) :
    addInt32 (toSigned32 x) = toSigned32 (x + 1) := by
  simp only [addInt32, toSigned32]
  omega

theorem toSigned32_eq_iff (a b : Int) :
    toSigned32 a = toSigned32 b ↔ a % 4294967296 = b % 4294967296 := by
  simp only [toSigned32]
  omega

/-- Claim C6 counterexample: the identity counter is an `int32` updated
with two's-complement wraparound, so construction calls whose indices
differ by `2^32` receive equal ids: the first call of a process (0 prior
constructions) and the call after `2^32` prior constructions both
receive id 1, though they are distinct construction calls.  This
falsifies "no two construction calls ever return values with equal
id". -/
theorem claim_c6_counterexample :
    (0 : Nat) ≠ 4294967296 ∧
    CError.id (NewC (counterAfter 0) 400 "a").1 =
      CError.id (NewC (counterAfter 4294967296) 400 "b").1 := by
  refine ⟨by decide, ?_⟩
  simp only [counterAfter_eq_toSigned32]
  rfl

/-- Claim C6 (amended): an identity allocated by `New` after `m` prior
constructions equals one allocated by `Wrap` after `n` prior
constructions exactly when `m ≡ n (mod 2^32)`; so identities are unique
among the first `2^32` construction calls of a process, but repeat
beyond that because the `int32` counter wraps. -/
theorem claim_c6_amended (m n : Nat) (cd1 cd2 : Fin 65536)
    (s1 s2 : String) (w : GoErr) :
    CError.id (NewC (counterAfter m) cd1 s1).1 =
      CError.id (WrapC (counterAfter n) w cd2 s2).1 ↔
    m % 4294967296 = n % 4294967296 := by
  have h1 : CError.id (NewC (counterAfter m) cd1 s1).1 =
      addInt32 (counterAfter m) := rfl
  have h2 : CError.id (WrapC (counterAfter n) w cd2 s2).1 =
      addInt32 (counterAfter n) := rfl
  rw [h1, h2, counterAfter_eq_toSigned32 m, counterAfter_eq_toSigned32 n,
    addInt32_toSigned32, addInt32_toSigned32, toSigned32_eq_iff]
  omega

/-- Claim C1: each of the five single derivations keeps the `id` field of
the receiver, and `Is` returns true in both directions between the
receiver and the derived value, whatever the argument and however the
other fields differ. -/
theorem claim_c1_derivation_preserves_identity (a : CError)
    (x : Fin 65536) (s : String) (er : GoErr) (d u : String) :
    ((a.WithCode x).id = a.id ∧ a.Is (.cerr (a.WithCode x)) = true ∧
      (a.WithCode x).Is (.cerr a) = true) ∧
    ((a.WithMessage s).id = a.id ∧ a.Is (.cerr (a.WithMessage s)) = true ∧
      (a.WithMessage s).Is (.cerr a) = true) ∧
    ((a.WithWrap er).id = a.id ∧ a.Is (.cerr (a.WithWrap er)) = true ∧
      (a.WithWrap er).Is (.cerr a) = true) ∧
    ((a.WithDetail d).id = a.id ∧ a.Is (.cerr (a.WithDetail d)) = true ∧
      (a.WithDetail d).Is (.cerr a) = true) ∧
    ((a.WithUserDetail u).id = a.id ∧
      a.Is (.cerr (a.WithUserDetail u)) = true ∧
      (a.WithUserDetail u).Is (.cerr a) = true) := by
  cases a
  simp [CError.WithCode, CError.WithMessage, CError.WithWrap,
    CError.WithDetail, CError.WithUserDetail, CError.Is, CError.id,
    CError.wrapped, CError.details, CError.userdetails, CError.msg,
    CError.code]

/-- Claim C10: `IsCode` returns true exactly when the argument is in the
uint16 range and equals the stored code; any out-of-range argument gives
false rather than being truncated. -/
theorem claim_c10_iscode (e : CError) (c : Int) :
    e.IsCode c = true ↔
      (0 ≤ c ∧ c ≤ 65535 ∧ ((e.code : Nat) : Int) = c) := by
  have hlt : (e.code : Nat) < 65536 := e.code.isLt
  simp only [CError.IsCode]
  split
  next hcond =>
    simp only [Bool.or_eq_true, decide_eq_true_eq] at hcond
    constructor
    · intro hf; exact absurd hf (by simp)
    · intro hr; omega
  next hcond =>
    simp only [Bool.or_eq_true, decide_eq_true_eq, not_or, not_lt] at hcond
    simp only [beq_iff_eq]
    constructor
    · intro he; omega
    · intro hr; omega

theorem chainFrom_getElem_succ (g : GoErr) (k : Nat) :
    (chainFrom g)[k + 1]? = ((chainFrom g)[k]?).bind nextLink := by
  induction g using chainFrom.induct generalizing k with
  | case1 w d u m i c ih =>
      cases k with
      | zero =>
          rw [chainFrom_cons (.cerr (.mk (some w) d u m i c))]
          simp [nextLink, CError.wrapped, chainFrom_cons w]
      | succ j =>
          rw [chainFrom_cons (.cerr (.mk (some w) d u m i c))]
          simp only [nextLink, CError.wrapped]
          simpa using ih j
  | case2 d u m i c =>
      cases k <;> simp [chainFrom, nextLink, CError.wrapped]
  | case3 t n ih =>
      cases k with
      | zero =>
          rw [chainFrom_cons (.unwrapper t (some n))]
          simp [nextLink, chainFrom_cons n]
      | succ j =>
          rw [chainFrom_cons (.unwrapper t (some n))]
          simp only [nextLink]
          simpa using ih j
  | case4 t =>
      cases k <;> simp [chainFrom, nextLink]
  | case5 t =>
      cases k <;> simp [chainFrom, nextLink]

theorem chainFrom_head (g : GoErr) : (chainFrom g).head? = some g := by
  rw [chainFrom_cons]
  rfl

/-- Claim C5: `UnwrapAll` returns the empty sequence exactly when there
is no cause; otherwise it starts at the direct cause and each element is
followed by the link the type switch steps to (a `CError`'s own cause,
a foreign unwrapper's `Unwrap()`, nothing for a plain foreign error); on
the 3-deep chain `Wrap(Wrap(plain, ...), ...)` it returns the middle
`CError` and then the plain foreign error, in that order. -/
theorem claim_c5_unwrapall (c : CError) :
    (c.UnwrapAll = [] ↔ c.wrapped = none) ∧
    (∀ w, c.wrapped = some w → c.UnwrapAll.head? = some w) ∧
    (∀ k, c.UnwrapAll[k + 1]? = (c.UnwrapAll[k]?).bind nextLink) ∧
    (∀ (counter1 counter2 : Int) (t s2 s3 : String) (cd2 cd3 : Fin 65536),
      CError.UnwrapAll
        (WrapC counter2 (.cerr (WrapC counter1 (.plain t) cd2 s2).1)
          cd3 s3).1 =
        [.cerr (WrapC counter1 (.plain t) cd2 s2).1, .plain t]) := by
  obtain ⟨w, d, u, m, i, cd⟩ := c
  refine ⟨?_, ?_, ?_, ?_⟩
  · cases w with
    | none => simp [CError.UnwrapAll, CError.wrapped]
    | some a =>
        simp only [CError.UnwrapAll, CError.wrapped]
        rw [chainFrom_cons]
        simp
  · intro w' hw
    simp only [CError.wrapped] at hw
    subst hw
    simp only [CError.UnwrapAll, CError.wrapped]
    exact chainFrom_head w'
  · intro k
    cases w with
    | none => simp [CError.UnwrapAll, CError.wrapped]
    | some a =>
        simp only [CError.UnwrapAll, CError.wrapped]
        exact chainFrom_getElem_succ a k
  · intro counter1 counter2 t s2 s3 cd2 cd3
    simp [WrapC, CError.UnwrapAll, CError.wrapped, chainFrom]

/-- Claim C5 witness: on a concrete wrap of a plain foreign error, the
walk's first element is that direct cause. -/
theorem claim_c5_witness :
    (CError.UnwrapAll (WrapC 1 (.plain "io failure") 500 "db error").1).head? =
      some (.plain "io failure") :=
  (claim_c5_unwrapall (WrapC 1 (.plain "io failure") 500 "db error").1).2.1
    (.plain "io failure") rfl

theorem jsonStrValsL_map_str (ds : List String) :
    jsonStrValsL (ds.map JValue.str) = ds := by
  induction ds <;> simp [jsonStrValsL, jsonStrVals, *]

theorem jsonNumValsL_map_str (ds : List String) :
    jsonNumValsL (ds.map JValue.str) = [] := by
  induction ds <;> simp [jsonNumValsL, jsonNumVals, *]

/-- Claim C2: `MarshalJSON` emits exactly the fields `message` (the
message), `code` (the code) and `details` (the user details, omitted
when empty); every string value in the output is the message or a user
detail (so a string present only in the technical details never
occurs), the only number in the output is the code, and the output
depends only on message, code and user details — changing the technical
details, the identity or the cause cannot change it. -/
theorem claim_c2_safe_serialize (e : CError) :
    (jsonFieldNames e.MarshalJSON =
      ["message", "code"] ++
        (if e.userdetails.isEmpty then [] else ["details"])) ∧
    (jsonLookup "message" e.MarshalJSON = some (.str e.msg)) ∧
    (jsonLookup "code" e.MarshalJSON =
      some (.num ((e.code : Nat) : Int))) ∧
    (jsonLookup "details" e.MarshalJSON =
      if e.userdetails.isEmpty then none
      else some (.arr (e.userdetails.map JValue.str))) ∧
    (∀ s, s ∈ jsonStrVals e.MarshalJSON → s = e.msg ∨ s ∈ e.userdetails) ∧
    (∀ n, n ∈ jsonNumVals e.MarshalJSON → n = ((e.code : Nat) : Int)) ∧
    (∀ e2 : CError, e2.msg = e.msg → e2.code = e.code →
      e2.userdetails = e.userdetails → e2.MarshalJSON = e.MarshalJSON) := by
  refine ⟨?_, ?_, ?_, ?_, ?_, ?_, ?_⟩
  · by_cases h : e.userdetails.isEmpty <;>
      simp [h, CError.MarshalJSON, jsonFieldNames]
  · by_cases h : e.userdetails.isEmpty <;>
      simp [h, CError.MarshalJSON, jsonLookup, List.lookup]
  · by_cases h : e.userdetails.isEmpty <;>
      simp [h, CError.MarshalJSON, jsonLookup, List.lookup]
  · by_cases h : e.userdetails.isEmpty <;>
      simp [h, CError.MarshalJSON, jsonLookup, List.lookup]
  · intro s hs
    by_cases h : e.userdetails.isEmpty <;>
      simp [h, CError.MarshalJSON, jsonStrVals, jsonStrValsF,
        jsonStrValsL_map_str] at hs
    · left; exact hs
    · rcases hs with hs | hs
      · left; exact hs
      · right; exact hs
  · intro n hn
    by_cases h : e.userdetails.isEmpty <;>
      simp [h, CError.MarshalJSON, jsonNumVals, jsonNumValsF,
        jsonNumValsL_map_str] at hn <;> exact hn
  · intro e2 hm hc hu
    simp only [CError.MarshalJSON, hm, hc, hu]

/-- Claim C2 witness: two concrete errors agreeing on message, code and
user details but differing in cause, technical details and identity
serialize identically. -/
theorem claim_c2_witness :
    CError.MarshalJSON
        (CError.mk (some (.plain "boom")) ["tech detail"] ["ud"] "m" 7
          400) =
      CError.MarshalJSON (CError.mk none [] ["ud"] "m" 0 400) :=
  (claim_c2_safe_serialize (CError.mk none [] ["ud"] "m" 0 400)).2.2.2.2.2.2
    (CError.mk (some (.plain "boom")) ["tech detail"] ["ud"] "m" 7 400)
    rfl rfl rfl

theorem exceptBind_ok {ε α β : Type} (x : α) (f : α → Except ε β) :
    (Except.ok x >>= f : Except ε β) = f x := rfl

theorem decodeStrElems_map_str (ds : List String) :
    decodeStrElems (ds.map JValue.str) = .ok ds := by
  induction ds with
  | nil => rfl
  | cons d ds ih => simp [decodeStrElems, ih, Except.map]

theorem foldKey_message : foldKey "message" = "message" := rfl

theorem foldKey_code : foldKey "code" = "code" := rfl

theorem foldKey_details : foldKey "details" = "details" := rfl

theorem decodeField_message (acc : ErrJSONRec) (s : String) :
    decodeField acc ("message", .str s) =
      .ok { acc with message := s } := by
  simp [decodeField, foldKey_message]

theorem decodeField_code (acc : ErrJSONRec) (c : Fin 65536) :
    decodeField acc ("code", .num ((c : Nat) : Int)) =
      .ok { acc with codeVal := c } := by
  have hc : (0 : Int) ≤ ((c : Nat) : Int) ∧ ((c : Nat) : Int) < 65536 := by
    have := c.isLt
    omega
  simp only [decodeField]
  simp only [foldKey_code, String.reduceEq, if_false, if_true, reduceIte]
  rw [dif_pos hc]
  have hv : (((c : Nat) : Int)).toNat = (c : Nat) := Int.toNat_natCast _
  simp [Fin.ext_iff, hv]

theorem decodeField_details (acc : ErrJSONRec) (ds : List String) :
    decodeField acc ("details", .arr (ds.map JValue.str)) =
      .ok { acc with detailsVal := ds } := by
  simp [decodeField, foldKey_details, decodeStrElems_map_str,
    Except.map]

theorem decodeErrTmp_marshal (v : CError) :
    decodeErrTmp v.MarshalJSON = .ok ⟨v.msg, v.code, v.userdetails⟩ := by
  by_cases h : v.userdetails.isEmpty
  · have he : v.userdetails = [] := by
      simpa [List.isEmpty_iff] using h
    have hm : v.MarshalJSON =
        .obj [("message", .str v.msg),
          ("code", .num ((v.code : Nat) : Int))] := by
      simp [CError.MarshalJSON, h]
    rw [hm]
    have h0 : decodeErrTmp (.obj [("message", .str v.msg),
        ("code", .num ((v.code : Nat) : Int))]) =
        [("message", JValue.str v.msg),
          ("code", JValue.num ((v.code : Nat) : Int))].foldlM
          decodeField ⟨"", 0, []⟩ := rfl
    rw [h0, List.foldlM_cons, decodeField_message, exceptBind_ok,
      List.foldlM_cons, decodeField_code, exceptBind_ok, List.foldlM_nil,
      he]
    rfl
  · have hm : v.MarshalJSON =
        .obj [("message", .str v.msg),
          ("code", .num ((v.code : Nat) : Int)),
          ("details", .arr (v.userdetails.map JValue.str))] := by
      simp [CError.MarshalJSON, h]
    rw [hm]
    have h0 : decodeErrTmp (.obj [("message", .str v.msg),
        ("code", .num ((v.code : Nat) : Int)),
        ("details", .arr (v.userdetails.map JValue.str))]) =
        [("message", JValue.str v.msg),
          ("code", JValue.num ((v.code : Nat) : Int)),
          ("details", JValue.arr (v.userdetails.map JValue.str))].foldlM
          decodeField ⟨"", 0, []⟩ := rfl
    rw [h0, List.foldlM_cons, decodeField_message, exceptBind_ok,
      List.foldlM_cons, decodeField_code, exceptBind_ok,
      List.foldlM_cons, decodeField_details, exceptBind_ok,
      List.foldlM_nil]
    rfl

/-- Claim C3: deserializing the output of `MarshalJSON` into a fresh
zero value reproduces the message, the code and the user-detail
sequence exactly (order preserved); the remaining fields of the result
are zero. -/
theorem claim_c3_roundtrip (v : CError) :
    Deserialize v.MarshalJSON =
      .ok (CError.mk none [] v.userdetails v.msg 0 v.code) := by
  show zeroCError.UnmarshalJSON v.MarshalJSON = _
  rw [CError.UnmarshalJSON, decodeErrTmp_marshal v]
  rfl

/-- Claim C7: any successful deserialization yields a value whose
identity is zero and whose technical details and cause are empty; on a
well-formed three-field record the message, code and user details are
populated from the record's fields. -/
theorem claim_c7_deserialize :
    (∀ (j : JValue) (r : CError), Deserialize j = .ok r →
      r.id = 0 ∧ r.details = [] ∧ r.wrapped = none) ∧
    (∀ (m : String) (c : Fin 65536) (ds : List String),
      Deserialize (.obj [("message", .str m),
        ("code", .num ((c : Nat) : Int)),
        ("details", .arr (ds.map JValue.str))]) =
        .ok (.mk none [] ds m 0 c)) := by
  constructor
  · intro j r h
    rw [show Deserialize j = zeroCError.UnmarshalJSON j from rfl,
      CError.UnmarshalJSON] at h
    cases hd : decodeErrTmp j with
    | error s => rw [hd] at h; simp at h
    | ok tmp =>
        rw [hd] at h
        simp only [Except.ok.injEq] at h
        subst h
        simp [zeroCError, CError.id, CError.details, CError.wrapped]
  · intro m c ds
    show zeroCError.UnmarshalJSON _ = _
    rw [CError.UnmarshalJSON]
    have h0 : decodeErrTmp (.obj [("message", .str m),
        ("code", .num ((c : Nat) : Int)),
        ("details", .arr (ds.map JValue.str))]) =
        [("message", JValue.str m),
          ("code", JValue.num ((c : Nat) : Int)),
          ("details", JValue.arr (ds.map JValue.str))].foldlM
          decodeField ⟨"", 0, []⟩ := rfl
    rw [h0, List.foldlM_cons, decodeField_message, exceptBind_ok,
      List.foldlM_cons, decodeField_code, exceptBind_ok,
      List.foldlM_cons, decodeField_details, exceptBind_ok,
      List.foldlM_nil]
    rfl

/-- Claim C7 witness: a concrete three-field record deserializes to a
value with the record's fields and zero identity, empty technical
details and no cause. -/
theorem claim_c7_witness :
    CError.id (CError.mk none [] ["a"] "hi" 0 3) = 0 ∧
    CError.details (CError.mk none [] ["a"] "hi" 0 3) = [] ∧
    CError.wrapped (CError.mk none [] ["a"] "hi" 0 3) = none :=
  claim_c7_deserialize.1 _ _ (claim_c7_deserialize.2 "hi" 3 ["a"])

theorem expandAllWrapped_eq_map (g : GoErr) :
    expandAllWrapped g = (chainFrom g).map linkRecord := by
  induction g using expandAllWrapped.induct with
  | case1 w d u m i c ih =>
      simp [expandAllWrapped, chainFrom, linkRecord, CError.msg,
        CError.code, CError.details, CError.userdetails, ih]
  | case2 d u m i c =>
      simp [expandAllWrapped, chainFrom, linkRecord, CError.msg,
        CError.code, CError.details, CError.userdetails]
  | case3 t n ih =>
      simp [expandAllWrapped, chainFrom, linkRecord, ih]
  | case4 t => simp [expandAllWrapped, chainFrom, linkRecord]
  | case5 t => simp [expandAllWrapped, chainFrom, linkRecord]

theorem chainFrom_length_pos (g : GoErr) : 0 < (chainFrom g).length := by
  rw [chainFrom_cons]
  simp

/-- Claim C9: `FullData` always records the message and the code,
records technical details under `details` and user details under
`user_details` exactly when non-empty, and, exactly when a cause exists,
records under `wrapped` the ordered per-link records of the whole chain
walk: a `CError` link contributes message, code and its non-empty detail
lists; a foreign link contributes only its rendered text
(`linkRecord`). -/
theorem claim_c9_fulldata (e : CError) :
    ((e.FullData).lookup "message" = some (.str e.msg)) ∧
    ((e.FullData).lookup "code" = some (.num (e.code : Nat))) ∧
    ((e.FullData).lookup "details" =
      if e.details.length > 0 then some (.strs e.details) else none) ∧
    ((e.FullData).lookup "user_details" =
      if e.userdetails.length > 0 then some (.strs e.userdetails)
      else none) ∧
    ((e.FullData).lookup "wrapped" = (e.wrapped).map
      (fun w => DVal.recs ((chainFrom w).map linkRecord))) ∧
    ((e.FullData).map Prod.fst ⊆
      ["message", "code", "details", "user_details", "wrapped"]) := by
  have hexp : ∀ w : GoErr,
      (if (expandAllWrapped w).length > 0 then
        [("wrapped", DVal.recs (expandAllWrapped w))] else []) =
      [("wrapped", DVal.recs ((chainFrom w).map linkRecord))] := by
    intro w
    rw [expandAllWrapped_eq_map]
    rw [if_pos (by simpa using chainFrom_length_pos w)]
  cases hw : e.wrapped with
  | none =>
      by_cases hd : e.details.length > 0 <;>
        by_cases hu : e.userdetails.length > 0 <;>
        simp [CError.FullData, hw, hd, hu, List.lookup, List.subset_def]
  | some w =>
      by_cases hd : e.details.length > 0 <;>
        by_cases hu : e.userdetails.length > 0 <;>
        simp [CError.FullData, hw, hd, hu, hexp w, List.lookup,
          List.subset_def]

theorem getD_append_left {α : Type} (xs ys : List α) (i : Nat) (d : α)
    (h : i < xs.length) : (xs ++ ys).getD i d = xs.getD i d := by
  rw [List.getD_eq_getElem?_getD, List.getD_eq_getElem?_getD,
    List.getElem?_append, if_pos h]

theorem getD_append_self {α : Type} (xs : List α) (y : α) (d : α) :
    (xs ++ [y]).getD xs.length d = y := by
  simp [List.getD_eq_getElem?_getD, List.getElem?_append_right (Nat.le_refl _)]

theorem set_append_len {α : Type} (xs : List α) (y z : α) :
    (xs ++ [y]).set xs.length z = xs ++ [z] := by
  rw [List.set_append_right _ _ (Nat.le_refl _)]
  simp

theorem drop_replicate_succ {α : Type} (l : Nat) (a : α) :
    (List.replicate (l + 1) a).drop l = [a] := by
  induction l with
  | zero => rfl
  | succ k ih =>
      rw [List.replicate_succ, List.drop_succ_cons, ih]

theorem readSlice_length (h : Heap) (s : Slice)
    (hle : s.len ≤ (h.arrays.getD s.arr []).length) :
    (readSlice h s).length = s.len := by
  simp only [List.getD_eq_getElem?_getD] at hle
  simp [readSlice]
  omega

theorem set_append_len_eq {α : Type} (xs : List α) (y z : α) (i : Nat)
    (hi : i = xs.length) : (xs ++ [y]).set i z = xs ++ [z] := by
  subst hi
  exact set_append_len xs y z

theorem WithDetailS_spec (a : CErrorS) (d : String) (h : Heap)
    (hlt : a.details.arr < h.arrays.length)
    (hle : a.details.len ≤ (h.arrays.getD a.details.arr []).length) :
    WithDetailS a d h =
      ({ a with details := ⟨h.arrays.length, a.details.len + 1⟩ },
       ⟨h.arrays ++ [readSlice h a.details ++ [d]]⟩) := by
  simp only [WithDetailS, makeSlice, copySlice, appendSlice, readSlice]
  have e1 : (h.arrays ++
      [List.replicate (a.details.len + 1) ""]).getD a.details.arr [] =
      h.arrays.getD a.details.arr [] := getD_append_left _ _ _ _ hlt
  have e2 : (h.arrays ++
      [List.replicate (a.details.len + 1) ""]).getD h.arrays.length [] =
      List.replicate (a.details.len + 1) "" := getD_append_self _ _ _
  simp only [Nat.min_self, e1, e2]
  have e3 : List.take a.details.len
      (List.take a.details.len (h.arrays.getD a.details.arr [])) =
      List.take a.details.len (h.arrays.getD a.details.arr []) := by
    rw [List.take_take, Nat.min_self]
  have e4 : List.drop a.details.len
      (List.replicate (a.details.len + 1) "") = [""] :=
    drop_replicate_succ _ _
  simp only [e3, e4]
  have e5 : (h.arrays ++
      [List.replicate (a.details.len + 1) ""]).set h.arrays.length
      (List.take a.details.len (h.arrays.getD a.details.arr []) ++ [""]) =
      h.arrays ++
        [List.take a.details.len (h.arrays.getD a.details.arr []) ++
          [""]] := set_append_len _ _ _
  simp only [e5]
  have e6 : (h.arrays ++
      [List.take a.details.len (h.arrays.getD a.details.arr []) ++
        [""]]).getD h.arrays.length [] =
      List.take a.details.len (h.arrays.getD a.details.arr []) ++ [""] :=
    getD_append_self _ _ _
  simp only [e6]
  have hlen : (List.take a.details.len
      (h.arrays.getD a.details.arr [])).length = a.details.len := by
    rw [List.length_take]
    omega
  have e7 : a.details.len <
      (List.take a.details.len (h.arrays.getD a.details.arr []) ++
        [""]).length := by
    rw [List.length_append, hlen]
    simp
  rw [if_pos e7]
  have e8 : (List.take a.details.len (h.arrays.getD a.details.arr []) ++
      [""]).set a.details.len d =
      List.take a.details.len (h.arrays.getD a.details.arr []) ++ [d] :=
    set_append_len_eq _ _ _ _ hlen.symm
  simp only [e8]
  have e9 : (h.arrays ++
      [List.take a.details.len (h.arrays.getD a.details.arr []) ++
        [""]]).set h.arrays.length
      (List.take a.details.len (h.arrays.getD a.details.arr []) ++ [d]) =
      h.arrays ++
        [List.take a.details.len (h.arrays.getD a.details.arr []) ++
          [d]] := set_append_len _ _ _
  simp only [e9]

theorem WithUserDetailS_spec (a : CErrorS) (d : String) (h : Heap)
    (hlt : a.userdetails.arr < h.arrays.length)
    (hle : a.userdetails.len ≤
      (h.arrays.getD a.userdetails.arr []).length) :
    WithUserDetailS a d h =
      ({ a with userdetails := ⟨h.arrays.length, a.userdetails.len + 1⟩ },
       ⟨h.arrays ++ [readSlice h a.userdetails ++ [d]]⟩) := by
  simp only [WithUserDetailS, makeSlice, copySlice, appendSlice, readSlice]
  have e1 : (h.arrays ++
      [List.replicate (a.userdetails.len + 1) ""]).getD a.userdetails.arr
      [] = h.arrays.getD a.userdetails.arr [] := getD_append_left _ _ _ _ hlt
  have e2 : (h.arrays ++
      [List.replicate (a.userdetails.len + 1) ""]).getD h.arrays.length
      [] = List.replicate (a.userdetails.len + 1) "" :=
    getD_append_self _ _ _
  simp only [Nat.min_self, e1, e2]
  have e3 : List.take a.userdetails.len
      (List.take a.userdetails.len
        (h.arrays.getD a.userdetails.arr [])) =
      List.take a.userdetails.len (h.arrays.getD a.userdetails.arr []) := by
    rw [List.take_take, Nat.min_self]
  have e4 : List.drop a.userdetails.len
      (List.replicate (a.userdetails.len + 1) "") = [""] :=
    drop_replicate_succ _ _
  simp only [e3, e4]
  have e5 : (h.arrays ++
      [List.replicate (a.userdetails.len + 1) ""]).set h.arrays.length
      (List.take a.userdetails.len (h.arrays.getD a.userdetails.arr []) ++
        [""]) =
      h.arrays ++
        [List.take a.userdetails.len
          (h.arrays.getD a.userdetails.arr []) ++ [""]] :=
    set_append_len _ _ _
  simp only [e5]
  have e6 : (h.arrays ++
      [List.take a.userdetails.len (h.arrays.getD a.userdetails.arr []) ++
        [""]]).getD h.arrays.length [] =
      List.take a.userdetails.len (h.arrays.getD a.userdetails.arr []) ++
        [""] := getD_append_self _ _ _
  simp only [e6]
  have hlen : (List.take a.userdetails.len
      (h.arrays.getD a.userdetails.arr [])).length =
      a.userdetails.len := by
    rw [List.length_take]
    omega
  have e7 : a.userdetails.len <
      (List.take a.userdetails.len (h.arrays.getD a.userdetails.arr []) ++
        [""]).length := by
    rw [List.length_append, hlen]
    simp
  rw [if_pos e7]
  have e8 : (List.take a.userdetails.len
      (h.arrays.getD a.userdetails.arr []) ++ [""]).set
      a.userdetails.len d =
      List.take a.userdetails.len (h.arrays.getD a.userdetails.arr []) ++
        [d] := set_append_len_eq _ _ _ _ hlen.symm
  simp only [e8]
  have e9 : (h.arrays ++
      [List.take a.userdetails.len (h.arrays.getD a.userdetails.arr []) ++
        [""]]).set h.arrays.length
      (List.take a.userdetails.len (h.arrays.getD a.userdetails.arr []) ++
        [d]) =
      h.arrays ++
        [List.take a.userdetails.len
          (h.arrays.getD a.userdetails.arr []) ++ [d]] :=
    set_append_len _ _ _
  simp only [e9]

theorem readSlice_extend (h : Heap) (xs : List String) (s : Slice)
    (hlt : s.arr < h.arrays.length) :
    readSlice ⟨h.arrays ++ [xs]⟩ s = readSlice h s := by
  simp only [readSlice]
  rw [getD_append_left _ _ _ _ hlt]

theorem readSlice_fresh (h : Heap) (xs : List String) (n : Nat)
    (hn : n = xs.length) :
    readSlice ⟨h.arrays ++ [xs]⟩ ⟨h.arrays.length, n⟩ = xs := by
  subst hn
  simp only [readSlice]
  rw [getD_append_self]
  exact List.take_length xs

theorem WithDetailS_sibling (a : CErrorS) (d1 d2 : String) (h : Heap)
    (hdlt : a.details.arr < h.arrays.length)
    (hdle : a.details.len ≤ (h.arrays.getD a.details.arr []).length) :
    readSlice (WithDetailS a d2 (WithDetailS a d1 h).2).2
        ((WithDetailS a d1 h).1).details =
      readSlice h a.details ++ [d1] ∧
    readSlice (WithDetailS a d2 (WithDetailS a d1 h).2).2
        ((WithDetailS a d2 (WithDetailS a d1 h).2).1).details =
      readSlice h a.details ++ [d2] := by
  have hDlen : (readSlice h a.details).length = a.details.len :=
    readSlice_length h a.details hdle
  have hspec1 := WithDetailS_spec a d1 h hdlt hdle
  have hdlt2 : a.details.arr <
      (⟨h.arrays ++ [readSlice h a.details ++ [d1]]⟩ : Heap).arrays.length := by
    show a.details.arr < (h.arrays ++ [readSlice h a.details ++ [d1]]).length
    rw [List.length_append]
    omega
  have hdle2 : a.details.len ≤
      ((⟨h.arrays ++ [readSlice h a.details ++ [d1]]⟩ :
        Heap).arrays.getD a.details.arr []).length := by
    rw [show (⟨h.arrays ++ [readSlice h a.details ++ [d1]]⟩ :
      Heap).arrays = h.arrays ++ [readSlice h a.details ++ [d1]] from rfl,
      getD_append_left _ _ _ _ hdlt]
    exact hdle
  have hspec2 := WithDetailS_spec a d2
    ⟨h.arrays ++ [readSlice h a.details ++ [d1]]⟩ hdlt2 hdle2
  have hread2 : readSlice
      (⟨h.arrays ++ [readSlice h a.details ++ [d1]]⟩ : Heap) a.details =
      readSlice h a.details := readSlice_extend h _ a.details hdlt
  rw [hspec1]
  simp only []
  rw [hspec2]
  simp only [hread2]
  constructor
  · rw [readSlice_extend ⟨h.arrays ++ [readSlice h a.details ++ [d1]]⟩
      (readSlice h a.details ++ [d2])
      ⟨h.arrays.length, a.details.len + 1⟩
      (by show h.arrays.length <
            (h.arrays ++ [readSlice h a.details ++ [d1]]).length
          rw [List.length_append]
          simp)]
    exact readSlice_fresh h _ _ (by simp [hDlen])
  · exact readSlice_fresh ⟨h.arrays ++ [readSlice h a.details ++ [d1]]⟩
      _ _ (by simp [hDlen])

/-- Claim C4 counterexample: a derived value does share backing storage
with the receiver's detail sequences.  `newErr := *e` copies the slice
headers, so `WithDetail` leaves the result's `userdetails` header
identical to the receiver's (same backing array, here array 1 holding
"u"), and `WithCode` leaves both headers identical; "shares no backing
storage with the receiver's detail sequences" is therefore false.  (No
observable mutation occurs — the amended claim — but the storage is
shared.) -/
theorem claim_c4_counterexample :
    ((WithDetailS ⟨none, ⟨0, 1⟩, ⟨1, 1⟩, "m", 7, 500⟩ "x"
        ⟨[["t"], ["u"]]⟩).1).userdetails =
      (⟨none, ⟨0, 1⟩, ⟨1, 1⟩, "m", 7, 500⟩ : CErrorS).userdetails ∧
    ((WithDetailS ⟨none, ⟨0, 1⟩, ⟨1, 1⟩, "m", 7, 500⟩ "x"
        ⟨[["t"], ["u"]]⟩).2).arrays.getD 1 [] = ["u"] ∧
    ((WithCodeS ⟨none, ⟨0, 1⟩, ⟨1, 1⟩, "m", 7, 500⟩ 404
        ⟨[["t"], ["u"]]⟩).1).details =
      (⟨none, ⟨0, 1⟩, ⟨1, 1⟩, "m", 7, 500⟩ : CErrorS).details := by
  refine ⟨rfl, rfl, rfl⟩

/-- Claim C4 (amended): no derivation mutates the receiver or any
existing backing array — `WithCode`/`WithMessage`/`WithWrap` leave the
heap untouched and `WithDetail`/`WithUserDetail` only append a fresh
array — the receiver's two sequences read unchanged afterwards; the
sequence being appended to is deep-copied into fresh backing (a new
array id, never the receiver's) with the receiver's elements plus the
new detail; and two values derived independently from the same receiver
each contain only their own appended detail.  Sharing is limited to the
sequences a derivation does not append to, which are never mutated. -/
theorem claim_c4_amended (a : CErrorS) (d1 d2 m : String)
    (c : Fin 65536) (er : GoErr) (h : Heap)
    (hdlt : a.details.arr < h.arrays.length)
    (hdle : a.details.len ≤ (h.arrays.getD a.details.arr []).length)
    (hult : a.userdetails.arr < h.arrays.length)
    (hule : a.userdetails.len ≤
      (h.arrays.getD a.userdetails.arr []).length) :
    ((WithCodeS a c h).2 = h ∧ (WithMessageS a m h).2 = h ∧
      (WithWrapS a er h).2 = h) ∧
    ((WithDetailS a d1 h).2.arrays.take h.arrays.length = h.arrays ∧
      (WithUserDetailS a d1 h).2.arrays.take h.arrays.length =
        h.arrays) ∧
    (readSlice (WithDetailS a d1 h).2 a.details =
        readSlice h a.details ∧
      readSlice (WithDetailS a d1 h).2 a.userdetails =
        readSlice h a.userdetails ∧
      readSlice (WithUserDetailS a d1 h).2 a.details =
        readSlice h a.details ∧
      readSlice (WithUserDetailS a d1 h).2 a.userdetails =
        readSlice h a.userdetails) ∧
    (readSlice (WithDetailS a d1 h).2 ((WithDetailS a d1 h).1).details =
        readSlice h a.details ++ [d1] ∧
      ((WithDetailS a d1 h).1).details.arr ≠ a.details.arr ∧
      ((WithDetailS a d1 h).1).userdetails = a.userdetails) ∧
    (readSlice (WithUserDetailS a d1 h).2
        ((WithUserDetailS a d1 h).1).userdetails =
        readSlice h a.userdetails ++ [d1] ∧
      ((WithUserDetailS a d1 h).1).userdetails.arr ≠
        a.userdetails.arr ∧
      ((WithUserDetailS a d1 h).1).details = a.details) ∧
    (readSlice (WithDetailS a d2 (WithDetailS a d1 h).2).2
        ((WithDetailS a d1 h).1).details =
        readSlice h a.details ++ [d1] ∧
      readSlice (WithDetailS a d2 (WithDetailS a d1 h).2).2
        ((WithDetailS a d2 (WithDetailS a d1 h).2).1).details =
        readSlice h a.details ++ [d2]) := by
  have hDlen : (readSlice h a.details).length = a.details.len :=
    readSlice_length h a.details hdle
  have hUlen : (readSlice h a.userdetails).length = a.userdetails.len :=
    readSlice_length h a.userdetails hule
  have hspecd := WithDetailS_spec a d1 h hdlt hdle
  have hspecu := WithUserDetailS_spec a d1 h hult hule
  refine ⟨⟨rfl, rfl, rfl⟩, ⟨?_, ?_⟩, ⟨?_, ?_, ?_, ?_⟩,
    ⟨?_, ?_, ?_⟩, ⟨?_, ?_, ?_⟩, WithDetailS_sibling a d1 d2 h hdlt hdle⟩
  · rw [hspecd]
    exact List.take_left' rfl
  · rw [hspecu]
    exact List.take_left' rfl
  · rw [hspecd]
    exact readSlice_extend h _ a.details hdlt
  · rw [hspecd]
    exact readSlice_extend h _ a.userdetails hult
  · rw [hspecu]
    exact readSlice_extend h _ a.details hdlt
  · rw [hspecu]
    exact readSlice_extend h _ a.userdetails hult
  · rw [hspecd]
    exact readSlice_fresh h _ _ (by simp [hDlen])
  · rw [hspecd]
    simp only []
    omega
  · rw [hspecd]
  · rw [hspecu]
    exact readSlice_fresh h _ _ (by simp [hUlen])
  · rw [hspecu]
    simp only []
    omega
  · rw [hspecu]

/-- Claim C4 witness: on a concrete receiver and heap, deriving with
`WithDetail` leaves the receiver's technical-detail sequence reading
unchanged. -/
theorem claim_c4_witness :
    readSlice (WithDetailS ⟨none, ⟨0, 1⟩, ⟨1, 1⟩, "m", 7, 500⟩ "x"
        ⟨[["t"], ["u"]]⟩).2 ⟨0, 1⟩ =
      readSlice ⟨[["t"], ["u"]]⟩ ⟨0, 1⟩ :=
  (claim_c4_amended ⟨none, ⟨0, 1⟩, ⟨1, 1⟩, "m", 7, 500⟩ "x" "y" "mm"
    404 (.plain "z") ⟨[["t"], ["u"]]⟩ (by decide) (by decide)
    (by decide) (by decide)).2.2.1.1
